import Mathlib

/-!
Verification of the pgdatadiff comparison engine (src/pgdatadiff/pgdatadiff.py)
against its natural-language specification.

A table of one source is embedded as the list of its rows in ascending
primary-key order: this is the canonical representation of the row set that
every ORDER BY primary-key query of the engine observes.  The code's md5
digests are idealized as injective, so a chunk digest is embedded as the list
of the projected row values the SQL feeds into md5.  Machine-level failure is
explicit: the Except layer carries the Python exceptions that can escape
(`TypeError` from iterating a None column list, `ProgrammingError` from a
query naming a column a row does not have).  Each engine call also returns
the trace of row-content queries it issued (first-primary-key probe, chunk
hash query, next-cursor query), which makes statements such as "no further
scanning occurs" provable.
-/

namespace Pgdatadiff

/-- One row of a table: the scalar primary-key value together with the
association list of column name to column value. -/
structure TRow where
  key : Int
  vals : List (String × Int)
deriving DecidableEq

/-- What the engine knows about the first source's table: the rows plus the
inspector's answers (primary-key constraint columns and column names). -/
structure FirstTable where
  rows : List TRow
  pkCols : List String
  cols : List String
deriving DecidableEq

/-- Python exceptions that can escape the engine: `TypeError` from iterating
over a None `check_columns`, `ProgrammingError` from a failing query. -/
inductive PyErr where
  | typeError
  | programmingError
deriving DecidableEq

/-- Row-content queries issued against a source (1 = first, 2 = second). -/
inductive Query where
  | firstPkQ : Nat → Query
  | hashQ : Nat → Option Int → Query
  | cursorQ : Option Int → Query
deriving DecidableEq

/-- Result of one comparison, as the Python pair of a tri-state flag
(`some true` = Match, `some false` = Mismatch, `none` = Inconclusive) and a
human-readable message. -/
abbrev DiffResult := Option Bool × String

/-- Rendering of a Python value in an f-string: None prints as "None",
an integer prints as itself. -/
def pyStr : Option Int → String
  | none => "None"
  | some v => toString v

/-- Separator the code joins primary-key column names with. -/
def commaSep : String := ","

/-- Message of the count mismatch branch. -/
def countsMsg (a b : Nat) : String := s!"counts are different {a} != {b}"

/-- Message of the chunk digest mismatch branch. -/
def mismatchMsg (c : Option Int) (n : Nat) : String :=
  s!"data is different - start_cursor {pyStr c} - with {n}"

/-- Value of one column of a row, as the SQL projection reads it: `none`
when the row has no column of that name (the query would fail). -/
def lookupCol (vals : List (String × Int)) (c : String) : Option Int :=
  (vals.find? (fun p => p.1 == c)).map (fun p => p.2)

/-- Content a single row contributes to the chunk digest.  With an explicit
checked-column list the SQL hashes the tuple (pk, checked columns...); with
an empty list it hashes the whole row (the code's t.* branch). -/
inductive RowDigest where
  | someCols : Int → List Int → RowDigest
  | allCols : Int → List (String × Int) → RowDigest
deriving DecidableEq

/-- Digest contribution of one row (md5 of the projected tuple, idealized as
the tuple itself); `none` when a checked column is missing from the row. -/
def rowDigest (cc : List String) (r : TRow) : Option RowDigest :=
  if cc.isEmpty then some (RowDigest.allCols r.key r.vals)
  else (cc.mapM (lookupCol r.vals)).map (fun vs => RowDigest.someCols r.key vs)

/-- Rows the chunk query sees: up to `n` rows with primary key at least the
cursor, in ascending key order.  A None cursor (SQL NULL) matches no row. -/
def window (rows : List TRow) (cursor : Option Int) (n : Nat) : List TRow :=
  match cursor with
  | none => []
  | some c => (rows.filter (fun r => decide (c ≤ r.key))).take n

/-- Digest of one chunk: the ordered list of the row digests of the window
(md5 of the array of row md5s, idealized as injective); `none` when the hash
query fails because a checked column is missing from a row. -/
def chunkDigest (rows : List TRow) (cc : List String) (cursor : Option Int) (n : Nat) :
    Option (List RowDigest) :=
  (window rows cursor n).mapM (rowDigest cc)

/-- Next cursor: the maximum primary key of the window, obtained by the code
as the last row of the ascending window re-ordered descending with LIMIT 1;
`none` (SQL NULL scalar) when the window is empty. -/
def nextCursor (rows : List TRow) (cursor : Option Int) (n : Nat) : Option Int :=
  ((window rows cursor n).getLast?).map (fun r => r.key)

/-- Scalar of SELECT pk FROM t ORDER BY pk LIMIT 1: the least primary key. -/
def minKey (rows : List TRow) : Option Int := rows.head?.map (fun r => r.key)

/-- Number of rows whose key lies strictly above `c`; the potential driving
the cursor loop's termination. -/
def keysAbove (rows : List TRow) (c : Int) : Nat :=
  (rows.filter (fun r => decide (c < r.key))).length

/-- Termination measure of the cursor loop, as a function of the previous and
current cursor values. -/
def scanMeasure (rows : List TRow) (prev cursor : Option Int) : Nat :=
  match cursor with
  | none => if prev = none then 0 else 1
  | some c => 2 + 2 * keysAbove rows c + (if prev = some c then 0 else 1)

theorem length_filter_le_of_imp {α : Type} {p q : α → Bool} :
    ∀ {l : List α}, (∀ a ∈ l, p a = true → q a = true) →
      (l.filter p).length ≤ (l.filter q).length := by
  intro l
  induction l with
  | nil => intro _; simp
  | cons x xs ih =>
    intro h
    have hxs : ∀ a ∈ xs, p a = true → q a = true := fun a ha => h a (List.mem_cons_of_mem x ha)
    by_cases hp : p x = true
    · have hq : q x = true := h x (List.mem_cons_self x xs) hp
      simp only [List.filter_cons, hp, hq, if_true, List.length_cons]
      exact Nat.succ_le_succ (ih hxs)
    · simp only [List.filter_cons]
      rw [if_neg hp]
      by_cases hq : q x = true
      · rw [if_pos hq]
        exact Nat.le_succ_of_le (ih hxs)
      · rw [if_neg hq]
        exact ih hxs

theorem length_filter_lt_of_witness {α : Type} {p q : α → Bool} :
    ∀ {l : List α}, (∀ a ∈ l, p a = true → q a = true) →
      ∀ a ∈ l, q a = true → p a = false →
      (l.filter p).length < (l.filter q).length := by
  intro l
  induction l with
  | nil => intro _ a ha; simp at ha
  | cons x xs ih =>
    intro h a ha hqa hpa
    have hxs : ∀ b ∈ xs, p b = true → q b = true := fun b hb => h b (List.mem_cons_of_mem x hb)
    rcases List.mem_cons.mp ha with rfl | hmem
    · simp only [List.filter_cons, hpa, hqa, if_true, Bool.false_eq_true, if_false,
        List.length_cons]
      exact Nat.lt_succ_of_le (length_filter_le_of_imp hxs)
    · have hlt := ih hxs a hmem hqa hpa
      by_cases hp : p x = true
      · have hq : q x = true := h x (List.mem_cons_self x xs) hp
        simp only [List.filter_cons, hp, hq, if_true, List.length_cons]
        exact Nat.succ_lt_succ hlt
      · simp only [List.filter_cons]
        rw [if_neg hp]
        by_cases hq : q x = true
        · rw [if_pos hq]
          exact Nat.lt_succ_of_lt hlt
        · rw [if_neg hq]
          exact hlt

theorem mem_of_getLast?_eq_some {α : Type} :
    ∀ {l : List α} {x : α}, l.getLast? = some x → x ∈ l := by
  intro l
  induction l with
  | nil => intro x h; simp at h
  | cons a t ih =>
    intro x h
    cases t with
    | nil =>
      simp only [List.getLast?_singleton, Option.some.injEq] at h
      simp [h]
    | cons b t' =>
      rw [List.getLast?_cons_cons] at h
      exact List.mem_cons_of_mem a (ih h)

/-- Properties of the next cursor: it is the key of a row of the table whose
key is at least the current cursor. -/
theorem nextCursor_spec {rows : List TRow} {c c' : Int} {n : Nat}
    (h : nextCursor rows (some c) n = some c') :
    ∃ r ∈ rows, r.key = c' ∧ c ≤ c' := by
  unfold nextCursor at h
  rcases Option.map_eq_some'.mp h with ⟨r, hr, hkey⟩
  have hmem : r ∈ window rows (some c) n := mem_of_getLast?_eq_some hr
  unfold window at hmem
  have hmem' : r ∈ rows.filter (fun r => decide (c ≤ r.key)) := List.mem_of_mem_take hmem
  have hmemrows : r ∈ rows := List.mem_of_mem_filter hmem'
  have hle : c ≤ r.key := by
    have := List.of_mem_filter hmem'
    exact of_decide_eq_true this
  exact ⟨r, hmemrows, hkey, hkey ▸ hle⟩

theorem nextCursor_none {rows : List TRow} {n : Nat} :
    nextCursor rows none n = none := by
  unfold nextCursor window
  simp

theorem keysAbove_lt {rows : List TRow} {r : TRow} {c c' : Int}
    (hrmem : r ∈ rows) (hrkey : r.key = c') (hlt : c < c') :
    keysAbove rows c' < keysAbove rows c := by
  unfold keysAbove
  apply length_filter_lt_of_witness
  · intro a _ ha
    have : c' < a.key := of_decide_eq_true ha
    exact decide_eq_true (lt_trans hlt this)
  · exact hrmem
  · exact decide_eq_true (hrkey ▸ hlt)
  · simp [hrkey]

/-- The termination measure strictly decreases at every continuing iteration
of the cursor loop. -/
theorem scanMeasure_decr (rows : List TRow) (n : Nat) (prev cursor : Option Int)
    (h : prev ≠ cursor) :
    scanMeasure rows cursor (nextCursor rows cursor n) < scanMeasure rows prev cursor := by
  cases cursor with
  | none =>
    rw [nextCursor_none]
    simp only [scanMeasure, if_pos rfl]
    rw [if_neg h]
    exact Nat.zero_lt_one
  | some c =>
    have hflag : (if prev = some c then (0 : Nat) else 1) = 1 := if_neg h
    cases hnc : nextCursor rows (some c) n with
    | none =>
      simp only [scanMeasure, hflag, reduceCtorEq, if_false]
      omega
    | some c' =>
      rcases nextCursor_spec hnc with ⟨r, hrmem, hrkey, hcle⟩
      simp only [scanMeasure, hflag]
      by_cases heq : c' = c
      · subst heq
        rw [if_pos rfl]
        omega
      · have hlt : c < c' := lt_of_le_of_ne hcle (fun hcc => heq hcc.symm)
        have hK : keysAbove rows c' < keysAbove rows c := keysAbove_lt hrmem hrkey hlt
        split <;> omega

/-- The cursor loop of diff_table_data (lines 107-124 of the source): while
the previous cursor differs from the current one, hash the chunk at the
cursor on both sources, return Mismatch if the digests differ, otherwise
advance the cursor to the maximum key of the first source's window; exiting
the loop returns Match.  The second component is the trace of the queries
issued. -/
def scanLoop (t1 t2 : List TRow) (cc : List String) (n : Nat) (prev cursor : Option Int) :
    Except PyErr DiffResult × List Query :=
  if h : prev = cursor then
    (Except.ok (some true, "data is identical."), [])
  else
    match chunkDigest t1 cc cursor n with
    | none => (Except.error PyErr.programmingError, [Query.hashQ 1 cursor])
    | some h1 =>
      match chunkDigest t2 cc cursor n with
      | none => (Except.error PyErr.programmingError, [Query.hashQ 1 cursor, Query.hashQ 2 cursor])
      | some h2 =>
        if h1 ≠ h2 then
          (Except.ok (some false, mismatchMsg cursor n),
            [Query.hashQ 1 cursor, Query.hashQ 2 cursor])
        else
          let rest := scanLoop t1 t2 cc n cursor (nextCursor t1 cursor n)
          (rest.1, Query.hashQ 1 cursor :: Query.hashQ 2 cursor :: Query.cursorQ cursor :: rest.2)
termination_by scanMeasure t1 prev cursor
decreasing_by exact scanMeasure_decr t1 n prev cursor h

/-- Embedding of DBDiff.diff_table_data (lines 44-124 of the source).  The
first source's table comes with its inspector data, the second as its rows;
a `none` table raises NoSuchTableError at autoload, which the code catches.
The steps, in source order: existence, count equality, emptiness, count-only
mode, primary-key presence, checked-column validation (iterating a None
`check_columns` raises TypeError past the except clause, which only catches
NoSuchTableError), first-key alignment, then the chunked scan. -/
def diff_table_data (ft : Option FirstTable) (srows : Option (List TRow)) (chunk_size : Nat)
    (count_only : Bool) (check_columns : Option (List String)) :
    Except PyErr DiffResult × List Query :=
  match ft, srows with
  | none, _ => (Except.ok (some false, "table is missing"), [])
  | some _, none => (Except.ok (some false, "table is missing"), [])
  | some t, some rs =>
    if t.rows.length ≠ rs.length then
      (Except.ok (some false, countsMsg t.rows.length rs.length), [])
    else if t.rows.length = 0 then
      (Except.ok (none, "tables are empty"), [])
    else if count_only then
      (Except.ok (some true, "Counts are the same"), [])
    else if String.intercalate commaSep t.pkCols = "" then
      (Except.ok (none, "no primary key(s) on this table. Comparison is not possible."), [])
    else
      match check_columns with
      | none => (Except.error PyErr.typeError, [])
      | some cc =>
        if (cc.filter (fun x => decide (x ∈ t.cols))).length ≠ cc.length then
          (Except.ok (none, "missing checked columns"), [])
        else if minKey t.rows ≠ minKey rs then
          (Except.ok (some false, "first primary keys are different"),
            [Query.firstPkQ 1, Query.firstPkQ 2])
        else
          let rest := scanLoop t.rows rs cc chunk_size none (minKey t.rows)
          (rest.1, Query.firstPkQ 1 :: Query.firstPkQ 2 :: rest.2)

/-- Cursor trajectory of the scan on the first source's table: the cursor
value entering iteration `k`, starting from `c0`. -/
def traj (rows : List TRow) (n : Nat) (c0 : Option Int) : Nat → Option Int
  | 0 => c0
  | k + 1 => nextCursor rows (traj rows n c0 k) n

/-- Transaction state of the two sessions: whether each one sits in an
aborted (dirty) transaction. -/
structure Sessions where
  firstDirty : Bool
  secondDirty : Bool
deriving DecidableEq

/-- Message of the equal-sequences branch. -/
def identMsg (v : Int) : String := s!"sequences are identical- ({v})."

/-- Message of the first-lags-second branch. -/
def lessMsg (a b : Int) : String := s!"first sequence is less than the second({a} vs {b})."

/-- Message of the first-exceeds-second branch. -/
def greaterMsg (a b : Int) : String := s!"first sequence is greater than the second({a} vs {b})."

/-- Embedding of DBDiff.diff_sequence (lines 132-153 of the source).  Each
argument is the sequence's last_value on that source, `none` when reading it
raises ProgrammingError; a failed read leaves the sessions dirty and the
except clause rolls both back before returning Mismatch.  A successful pair
of reads is compared with < and > and leaves the session state untouched. -/
def diff_sequence (v1 v2 : Option Int) (s : Sessions) : DiffResult × Sessions :=
  match v1, v2 with
  | some a, some b =>
    if a < b then ((none, lessMsg a b), s)
    else if b < a then ((some false, greaterMsg a b), s)
    else ((some true, identMsg a), s)
  | _, _ => ((some false, "sequence doesnt exist in second database."), ⟨false, false⟩)

/-- Lexicographic comparison of two character lists by code point, the order
Python's sorted uses on strings. -/
def strLeb : List Char → List Char → Bool
  | [], _ => true
  | _ :: _, [] => false
  | a :: as, b :: bs =>
    if a.toNat < b.toNat then true
    else if b.toNat < a.toNat then false
    else strLeb as bs

/-- Lexicographic order on strings by code point. -/
def strLe (a b : String) : Bool := strLeb a.data b.data

/-- Embedding of Python's sorted on a list of names. -/
def sortStrings (l : List String) : List String :=
  List.insertionSort (fun a b => strLe a b = true) l

theorem strLeb_total : ∀ as bs : List Char, strLeb as bs = true ∨ strLeb bs as = true := by
  intro as
  induction as with
  | nil => intro bs; left; rfl
  | cons a as ih =>
    intro bs
    cases bs with
    | nil => right; rfl
    | cons b bs =>
      simp only [strLeb]
      rcases Nat.lt_trichotomy a.toNat b.toNat with hlt | heq | hgt
      · left; simp [hlt]
      · have h1 : ¬ a.toNat < b.toNat := by omega
        have h2 : ¬ b.toNat < a.toNat := by omega
        simp only [h1, h2, if_false]
        exact ih bs
      · right; simp [hgt]

theorem strLeb_trans : ∀ as bs cs : List Char,
    strLeb as bs = true → strLeb bs cs = true → strLeb as cs = true := by
  intro as
  induction as with
  | nil => intro bs cs _ _; rfl
  | cons a as ih =>
    intro bs cs hab hbc
    cases bs with
    | nil => simp [strLeb] at hab
    | cons b bs =>
      cases cs with
      | nil => simp [strLeb] at hbc
      | cons c cs =>
        simp only [strLeb] at hab hbc ⊢
        rcases Nat.lt_trichotomy a.toNat b.toNat with h1 | h1 | h1
        · rcases Nat.lt_trichotomy b.toNat c.toNat with h2 | h2 | h2
          · simp [show a.toNat < c.toNat by omega]
          · simp [show a.toNat < c.toNat by omega]
          · rw [if_neg (by omega), if_pos h2] at hbc; exact absurd hbc (by simp)
        · rcases Nat.lt_trichotomy b.toNat c.toNat with h2 | h2 | h2
          · simp [show a.toNat < c.toNat by omega]
          · rw [if_neg (by omega), if_neg (by omega)] at hab hbc ⊢
            exact ih bs cs hab hbc
          · rw [if_neg (by omega), if_pos h2] at hbc; exact absurd hbc (by simp)
        · rw [if_neg (by omega), if_pos h1] at hab; exact absurd hab (by simp)

instance : IsTotal String fun a b => strLe a b = true :=
  ⟨fun a b => strLeb_total a.data b.data⟩

instance : IsTrans String fun a b => strLe a b = true :=
  ⟨fun a b c => strLeb_trans a.data b.data c.data⟩

/-- World of the sequence phase: the first source's catalog of sequence
names (from its pg_class) and each source's reading of a sequence's
last_value (`none` when the read raises ProgrammingError). -/
structure SeqWorld where
  firstCatalog : List String
  v1 : String → Option Int
  v2 : String → Option Int

/-- Embedding of DBDiff.get_all_sequences (lines 126-130): the sequence
names are read from the first session's pg_class only. -/
def get_all_sequences (w : SeqWorld) : List String := w.firstCatalog

/-- Loop body of diff_all_sequences: one unit per name, threading the
failure counter, the reported lines and the session state; a result of True
or None leaves the counter alone, anything else increments it. -/
def seqPhaseLoop (w : SeqWorld) :
    List String → Nat → List (String × DiffResult) → Sessions → Nat × List (String × DiffResult)
  | [], fails, rep, _ => (fails, rep)
  | sname :: rest, fails, rep, st =>
    let out := diff_sequence (w.v1 sname) (w.v2 sname) st
    let fails' := if out.1.1 = some true then fails else if out.1.1 = none then fails else fails + 1
    seqPhaseLoop w rest fails' (rep ++ [(sname, out.1)]) out.2

/-- Embedding of DBDiff.diff_all_sequences (lines 155-175): sort the first
source's sequence names, compare each, count failures, return 1 when there
was at least one failure and 0 otherwise, together with the reported lines. -/
def diff_all_sequences (w : SeqWorld) : Nat × List (String × DiffResult) :=
  let out := seqPhaseLoop w (sortStrings (get_all_sequences w)) 0 [] ⟨false, false⟩
  ((if out.1 > 0 then 1 else 0), out.2)

/-- World of the data phase: the first source's table catalog (from its
inspector, public schema) and each source's table for a name. -/
structure TableWorld where
  firstCatalog : List String
  first : String → Option FirstTable
  second : String → Option (List TRow)

/-- Embedding of the catalog enumeration of diff_all_table_data (lines
182-183): table names come from the first source's inspector only. -/
def get_table_names (w : TableWorld) : List String := w.firstCatalog

/-- Loop body of diff_all_table_data: one unit per name; an exception from
diff_table_data propagates and aborts the phase, a result of True or None
leaves the failure counter alone, anything else increments it. -/
def tablePhaseLoop (w : TableWorld) (n : Nat) (co : Bool) (cc : Option (List String)) :
    List String → Nat → List (String × DiffResult) →
      Except PyErr (Nat × List (String × DiffResult))
  | [], fails, rep => Except.ok (fails, rep)
  | t :: ts, fails, rep =>
    match (diff_table_data (w.first t) (w.second t) n co cc).1 with
    | Except.error e => Except.error e
    | Except.ok r =>
      let fails' := if r.1 = some true then fails else if r.1 = none then fails else fails + 1
      tablePhaseLoop w n co cc ts fails' (rep ++ [(t, r)])

/-- Embedding of DBDiff.diff_all_table_data (lines 177-200): sort the first
source's table names, compare each, count failures, return 1 when there was
at least one failure and 0 otherwise, together with the reported lines. -/
def diff_all_table_data (w : TableWorld) (n : Nat) (co : Bool) (cc : Option (List String)) :
    Except PyErr (Nat × List (String × DiffResult)) :=
  match tablePhaseLoop w n co cc (sortStrings (get_table_names w)) 0 [] with
  | Except.error e => Except.error e
  | Except.ok out => Except.ok ((if out.1 > 0 then 1 else 0), out.2)

/-- Query trace the scan produces when the first differing chunk digest sits
at the cursor reached after `k` loop iterations from `c0`. -/
def mismatchLog (rows : List TRow) (n : Nat) : Option Int → Nat → List Query
  | c0, 0 => [Query.hashQ 1 c0, Query.hashQ 2 c0]
  | c0, k + 1 =>
    Query.hashQ 1 c0 :: Query.hashQ 2 c0 :: Query.cursorQ c0 ::
      mismatchLog rows n (nextCursor rows c0 n) k

/-- Maximum of a list of integers, `none` on the empty list. -/
def listMax? : List Int → Option Int
  | [] => none
  | x :: xs =>
    match listMax? xs with
    | none => some x
    | some m => some (max x m)

/-- Potential of a cursor value: strictly decreases at every non-stagnating
cursor step, bounding the number of loop iterations. -/
def cursorPotential (rows : List TRow) : Option Int → Nat
  | none => 0
  | some c => 1 + keysAbove rows c

/-- Two rows carry identical content for the scan: equal primary keys and
equal digest contributions over the checked columns. -/
def rowRel (cc : List String) (r1 r2 : TRow) : Prop :=
  r1.key = r2.key ∧ rowDigest cc r1 = rowDigest cc r2

/-- Fixture row: key 1, columns id=1 and a=10. -/
def fixRow1 : TRow := ⟨1, [("id", 1), ("a", 10)]⟩

/-- Fixture row: key 2, columns id=2 and a=20. -/
def fixRow2 : TRow := ⟨2, [("id", 2), ("a", 20)]⟩

/-- Fixture row sharing key 2 but differing from fixRow2 in column a. -/
def fixRow2x : TRow := ⟨2, [("id", 2), ("a", 99)]⟩

/-- Fixture first-source table with two rows, primary key id. -/
def fixFirst : FirstTable := ⟨[fixRow1, fixRow2], ["id"], ["id", "a"]⟩

/-- Fixture second-source rows identical to the first source. -/
def fixSecondSame : List TRow := [fixRow1, fixRow2]

/-- Fixture second-source rows with the same keys and counts but content
differing in column a of the second row. -/
def fixSecondDiff : List TRow := [fixRow1, fixRow2x]

/-- Fixture sequence world: one catalogued sequence s1 with equal values,
plus a sequence extra present only in the second source (the first source
cannot read it, and it is absent from the first source's catalog). -/
def fixSeqWorld : SeqWorld :=
  ⟨["s1"], fun n => if n = "s1" then some 5 else none,
    fun n => if n = "s1" then some 5 else some 99⟩

/-- Fixture table world whose units reach column validation, used with a
None check_columns. -/
def fixTableWorld : TableWorld :=
  ⟨["a", "b"], fun _ => some fixFirst, fun _ => some fixSecondSame⟩

end Pgdatadiff

deriving instance DecidableEq for Except

namespace Pgdatadiff

theorem mapM_isSome {α β : Type} (f : α → Option β) :
    ∀ {l : List α}, (∀ a ∈ l, (f a).isSome) → (l.mapM f).isSome := by
  intro l
  induction l with
  | nil => intro _; rfl
  | cons a t ih =>
    intro h
    rcases Option.isSome_iff_exists.mp (h a (List.mem_cons_self a t)) with ⟨b, hb⟩
    rcases Option.isSome_iff_exists.mp (ih fun x hx => h x (List.mem_cons_of_mem a hx)) with
      ⟨bs, hbs⟩
    rw [List.mapM_cons, hb, hbs]
    rfl

theorem mapM_eq_of_forall₂ {α β γ : Type} {f : α → Option γ} {g : β → Option γ} :
    ∀ {l1 : List α} {l2 : List β}, List.Forall₂ (fun a b => f a = g b) l1 l2 →
      l1.mapM f = l2.mapM g := by
  intro l1 l2 h
  induction h with
  | nil => rfl
  | cons hab _ ih => rw [List.mapM_cons, List.mapM_cons, hab, ih]

theorem forall₂_filter {α β : Type} {R : α → β → Prop} {p : α → Bool} {q : β → Bool}
    (hpq : ∀ a b, R a b → p a = q b) :
    ∀ {l1 : List α} {l2 : List β}, List.Forall₂ R l1 l2 →
      List.Forall₂ R (l1.filter p) (l2.filter q) := by
  intro l1 l2 h
  induction h with
  | nil => simp
  | cons hab ht ih =>
    rename_i a b t1 t2
    simp only [List.filter_cons]
    rw [← hpq a b hab]
    by_cases hpa : p a = true
    · rw [if_pos hpa, if_pos hpa]
      exact List.Forall₂.cons hab ih
    · rw [if_neg hpa, if_neg hpa]
      exact ih

/-- The windows two content-identical tables present at any cursor are
related row by row. -/
theorem window_forall₂ (cc : List String) {rows1 rows2 : List TRow}
    (h : List.Forall₂ (rowRel cc) rows1 rows2) (c : Option Int) (n : Nat) :
    List.Forall₂ (rowRel cc) (window rows1 c n) (window rows2 c n) := by
  cases c with
  | none => exact List.Forall₂.nil
  | some c =>
    unfold window
    exact List.forall₂_take n
      (forall₂_filter (fun a b hab => by rw [hab.1]) h)

/-- Content-identical tables produce equal chunk digests at every cursor. -/
theorem chunkDigest_eq_of_forall₂ (cc : List String) {rows1 rows2 : List TRow}
    (h : List.Forall₂ (rowRel cc) rows1 rows2) (c : Option Int) (n : Nat) :
    chunkDigest rows1 cc c n = chunkDigest rows2 cc c n := by
  unfold chunkDigest
  exact mapM_eq_of_forall₂
    (List.Forall₂.imp (fun a b hab => hab.2) (window_forall₂ cc h c n))

theorem window_subset {rows : List TRow} {c : Option Int} {n : Nat} {r : TRow}
    (h : r ∈ window rows c n) : r ∈ rows := by
  cases c with
  | none => simp [window] at h
  | some c => exact List.mem_of_mem_filter (List.mem_of_mem_take h)

/-- When every row's digest contribution is defined, the chunk hash query
succeeds at every cursor. -/
theorem chunkDigest_isSome {rows : List TRow} {cc : List String}
    (h : ∀ r ∈ rows, (rowDigest cc r).isSome) (c : Option Int) (n : Nat) :
    (chunkDigest rows cc c n).isSome :=
  mapM_isSome _ fun r hr => h r (window_subset hr)

/-- The loop body exits with Match, issuing no query, exactly when the
previous cursor equals the current one. -/
theorem scanLoop_exit (t1 t2 : List TRow) (cc : List String) (n : Nat) {prev cursor : Option Int}
    (h : prev = cursor) :
    scanLoop t1 t2 cc n prev cursor = (Except.ok (some true, "data is identical."), []) := by
  rw [scanLoop, dif_pos h]

/-- The measure of a continuing loop state is positive. -/
theorem scanMeasure_pos {t1 : List TRow} {prev cursor : Option Int} (h : prev ≠ cursor) :
    1 ≤ scanMeasure t1 prev cursor := by
  cases cursor with
  | none => simp [scanMeasure, h]
  | some c => simp only [scanMeasure]; omega

theorem scanLoop_match_aux (t1 t2 : List TRow) (cc : List String) (n : Nat)
    (Hd : ∀ c, chunkDigest t1 cc c n = chunkDigest t2 cc c n)
    (Hs : ∀ c, (chunkDigest t1 cc c n).isSome) :
    ∀ (m : Nat) (prev cursor : Option Int), scanMeasure t1 prev cursor ≤ m →
      (scanLoop t1 t2 cc n prev cursor).1 = Except.ok (some true, "data is identical.") := by
  intro m
  induction m with
  | zero =>
    intro prev cursor hm
    by_cases h : prev = cursor
    · rw [scanLoop_exit t1 t2 cc n h]
    · have := @scanMeasure_pos t1 prev cursor h
      omega
  | succ m ih =>
    intro prev cursor hm
    by_cases h : prev = cursor
    · rw [scanLoop_exit t1 t2 cc n h]
    · rw [scanLoop, dif_neg h]
      rcases Option.isSome_iff_exists.mp (Hs cursor) with ⟨d, hd1⟩
      have hd2 : chunkDigest t2 cc cursor n = some d := by rw [← Hd]; exact hd1
      simp only [hd1, hd2, ne_eq, not_true_eq_false, if_false]
      exact ih cursor (nextCursor t1 cursor n)
        (by have := scanMeasure_decr t1 n prev cursor h; omega)

/-- When every chunk digest of both sources is defined and the two sources
produce equal digests at every cursor, the scan returns Match. -/
theorem scanLoop_match (t1 t2 : List TRow) (cc : List String) (n : Nat)
    (Hd : ∀ c, chunkDigest t1 cc c n = chunkDigest t2 cc c n)
    (Hs : ∀ c, (chunkDigest t1 cc c n).isSome) (prev cursor : Option Int) :
    (scanLoop t1 t2 cc n prev cursor).1 = Except.ok (some true, "data is identical.") :=
  scanLoop_match_aux t1 t2 cc n Hd Hs (scanMeasure t1 prev cursor) prev cursor le_rfl

theorem scanLoop_no_throw_aux (t1 t2 : List TRow) (cc : List String) (n : Nat)
    (Hs1 : ∀ c, (chunkDigest t1 cc c n).isSome)
    (Hs2 : ∀ c, (chunkDigest t2 cc c n).isSome) :
    ∀ (m : Nat) (prev cursor : Option Int), scanMeasure t1 prev cursor ≤ m →
      ∃ r, (scanLoop t1 t2 cc n prev cursor).1 = Except.ok r := by
  intro m
  induction m with
  | zero =>
    intro prev cursor hm
    by_cases h : prev = cursor
    · exact ⟨(some true, "data is identical."), by rw [scanLoop_exit t1 t2 cc n h]⟩
    · have := @scanMeasure_pos t1 prev cursor h
      omega
  | succ m ih =>
    intro prev cursor hm
    by_cases h : prev = cursor
    · exact ⟨(some true, "data is identical."), by rw [scanLoop_exit t1 t2 cc n h]⟩
    · rw [scanLoop, dif_neg h]
      rcases Option.isSome_iff_exists.mp (Hs1 cursor) with ⟨d1, hd1⟩
      rcases Option.isSome_iff_exists.mp (Hs2 cursor) with ⟨d2, hd2⟩
      simp only [hd1, hd2, ne_eq]
      by_cases hde : d1 = d2
      · simp only [hde, not_true_eq_false, if_false]
        exact ih cursor (nextCursor t1 cursor n)
          (by have := scanMeasure_decr t1 n prev cursor h; omega)
      · rw [if_pos hde]
        exact ⟨(some false, mismatchMsg cursor n), rfl⟩

/-- When every chunk digest of both sources is defined, no exception escapes
the scan. -/
theorem scanLoop_no_throw (t1 t2 : List TRow) (cc : List String) (n : Nat)
    (Hs1 : ∀ c, (chunkDigest t1 cc c n).isSome)
    (Hs2 : ∀ c, (chunkDigest t2 cc c n).isSome) (prev cursor : Option Int) :
    ∃ r, (scanLoop t1 t2 cc n prev cursor).1 = Except.ok r :=
  scanLoop_no_throw_aux t1 t2 cc n Hs1 Hs2 (scanMeasure t1 prev cursor) prev cursor le_rfl

/-- The scan returns Match having issued no query at all precisely when it
exits on its first loop test, that is when two consecutive cursor values
are equal. -/
theorem scanLoop_success_iff (t1 t2 : List TRow) (cc : List String) (n : Nat)
    (prev cursor : Option Int) :
    scanLoop t1 t2 cc n prev cursor = (Except.ok (some true, "data is identical."), []) ↔
      prev = cursor := by
  constructor
  · intro hEq
    by_contra h
    rw [scanLoop, dif_neg h] at hEq
    cases hd1 : chunkDigest t1 cc cursor n with
    | none => simp [hd1] at hEq
    | some d1 =>
      cases hd2 : chunkDigest t2 cc cursor n with
      | none => simp [hd1, hd2] at hEq
      | some d2 =>
        by_cases hde : d1 = d2
        · simp [hd1, hd2, hde] at hEq
        · simp [hd1, hd2, hde] at hEq
  · intro h
    exact scanLoop_exit t1 t2 cc n h

theorem traj_zero (rows : List TRow) (n : Nat) (c0 : Option Int) :
    traj rows n c0 0 = c0 := rfl

theorem traj_shift (rows : List TRow) (n : Nat) (c0 : Option Int) :
    ∀ k, traj rows n c0 (k + 1) = traj rows n (nextCursor rows c0 n) k := by
  intro k
  induction k with
  | zero => rfl
  | succ k ih =>
    simp only [traj] at ih ⊢
    rw [ih]

/-- When the digests agree (and are defined) at the cursors of the first `k`
iterations, no iteration up to `k` stagnates, and the digests differ (both
defined) at iteration `k`, the scan stops there with the Mismatch message
naming that cursor and the chunk size, and its query trace is exactly the
hash and cursor queries of iterations 0 through `k`. -/
theorem scanLoop_mismatch (t1 t2 : List TRow) (cc : List String) (n : Nat) :
    ∀ (k : Nat) (c0 prev : Option Int), prev ≠ c0 →
      (∀ j < k, chunkDigest t1 cc (traj t1 n c0 j) n = chunkDigest t2 cc (traj t1 n c0 j) n
        ∧ (chunkDigest t1 cc (traj t1 n c0 j) n).isSome) →
      (∀ j < k, traj t1 n c0 j ≠ traj t1 n c0 (j + 1)) →
      (chunkDigest t1 cc (traj t1 n c0 k) n).isSome →
      (chunkDigest t2 cc (traj t1 n c0 k) n).isSome →
      chunkDigest t1 cc (traj t1 n c0 k) n ≠ chunkDigest t2 cc (traj t1 n c0 k) n →
      scanLoop t1 t2 cc n prev c0
        = (Except.ok (some false, mismatchMsg (traj t1 n c0 k) n), mismatchLog t1 n c0 k) := by
  intro k
  induction k with
  | zero =>
    intro c0 prev hprev _ _ hs1 hs2 hne
    rcases Option.isSome_iff_exists.mp hs1 with ⟨d1, hd1⟩
    rcases Option.isSome_iff_exists.mp hs2 with ⟨d2, hd2⟩
    rw [traj_zero] at hd1 hd2
    have hde : d1 ≠ d2 := by
      intro he
      rw [traj_zero] at hne
      exact hne (by rw [hd1, hd2, he])
    rw [scanLoop, dif_neg hprev]
    simp only [hd1, hd2, ne_eq, hde, not_false_eq_true, if_true]
    simp [mismatchLog, traj_zero]
  | succ k ih =>
    intro c0 prev hprev Heq Hstep hs1 hs2 hne
    have h0 := Heq 0 (Nat.succ_pos k)
    rw [traj_zero] at h0
    rcases Option.isSome_iff_exists.mp h0.2 with ⟨d0, hd0⟩
    have hd0' : chunkDigest t2 cc c0 n = some d0 := by rw [← h0.1]; exact hd0
    have hprev' : (c0 : Option Int) ≠ nextCursor t1 c0 n := by
      have := Hstep 0 (Nat.succ_pos k)
      rw [traj_zero] at this
      exact this
    have Heq' : ∀ j < k,
        chunkDigest t1 cc (traj t1 n (nextCursor t1 c0 n) j) n
          = chunkDigest t2 cc (traj t1 n (nextCursor t1 c0 n) j) n
        ∧ (chunkDigest t1 cc (traj t1 n (nextCursor t1 c0 n) j) n).isSome := by
      intro j hj
      have := Heq (j + 1) (Nat.succ_lt_succ hj)
      rwa [traj_shift] at this
    have Hstep' : ∀ j < k,
        traj t1 n (nextCursor t1 c0 n) j ≠ traj t1 n (nextCursor t1 c0 n) (j + 1) := by
      intro j hj
      have := Hstep (j + 1) (Nat.succ_lt_succ hj)
      rwa [traj_shift, traj_shift] at this
    rw [traj_shift] at hs1 hs2 hne
    have hrec := ih (nextCursor t1 c0 n) c0 hprev' Heq' Hstep' hs1 hs2 hne
    rw [scanLoop, dif_neg hprev]
    simp only [hd0, hd0', ne_eq, not_true_eq_false, if_false, hrec]
    rw [traj_shift]
    simp [mismatchLog]

/-- Every hash query in the mismatch trace targets one of the cursors the
scan had already reached; no later chunk is examined. -/
theorem mismatchLog_hashQ (t1 : List TRow) (n : Nat) :
    ∀ (k : Nat) (c0 : Option Int) (i : Nat) (c : Option Int),
      Query.hashQ i c ∈ mismatchLog t1 n c0 k → ∃ j ≤ k, c = traj t1 n c0 j := by
  intro k
  induction k with
  | zero =>
    intro c0 i c hmem
    simp only [mismatchLog, List.mem_cons, List.not_mem_nil, or_false] at hmem
    rcases hmem with h | h
    · exact ⟨0, Nat.le_refl 0, (Query.hashQ.injEq _ _ _ _).mp h |>.2⟩
    · exact ⟨0, Nat.le_refl 0, (Query.hashQ.injEq _ _ _ _).mp h |>.2⟩
  | succ k ih =>
    intro c0 i c hmem
    simp only [mismatchLog, List.mem_cons] at hmem
    rcases hmem with h | h | h | h
    · exact ⟨0, Nat.zero_le _, (Query.hashQ.injEq _ _ _ _).mp h |>.2⟩
    · exact ⟨0, Nat.zero_le _, (Query.hashQ.injEq _ _ _ _).mp h |>.2⟩
    · exact absurd h (by simp)
    · rcases ih (nextCursor t1 c0 n) i c h with ⟨j, hj, hc⟩
      exact ⟨j + 1, Nat.succ_le_succ hj, by rw [traj_shift]; exact hc⟩

/-- A non-stagnating cursor step strictly decreases the cursor potential. -/
theorem cursorPotential_decr (rows : List TRow) (n : Nat) (c : Option Int)
    (h : nextCursor rows c n ≠ c) :
    cursorPotential rows (nextCursor rows c n) < cursorPotential rows c := by
  cases c with
  | none => exact absurd nextCursor_none h
  | some c =>
    cases hn : nextCursor rows (some c) n with
    | none => simp [cursorPotential]
    | some c' =>
      rcases nextCursor_spec hn with ⟨r, hrmem, hrkey, hcle⟩
      have hcc : c' ≠ c := fun he => h (by rw [hn, he])
      have hlt : c < c' := lt_of_le_of_ne hcle (fun he => hcc he.symm)
      simp only [cursorPotential]
      have := keysAbove_lt hrmem hrkey hlt
      omega

theorem traj_stagnation_aux (rows : List TRow) (n : Nat) :
    ∀ (m : Nat) (c0 : Option Int), cursorPotential rows c0 ≤ m →
      ∃ k ≤ m, traj rows n c0 k = traj rows n c0 (k + 1) := by
  intro m
  induction m with
  | zero =>
    intro c0 hm
    cases c0 with
    | none =>
      refine ⟨0, Nat.le_refl 0, ?_⟩
      simp [traj_zero, traj, nextCursor_none]
    | some c => simp [cursorPotential] at hm
  | succ m ih =>
    intro c0 hm
    by_cases hst : nextCursor rows c0 n = c0
    · refine ⟨0, Nat.zero_le _, ?_⟩
      simp [traj_zero, traj, hst]
    · have hdec := cursorPotential_decr rows n c0 hst
      rcases ih (nextCursor rows c0 n) (by omega) with ⟨k, hk, hstag⟩
      refine ⟨k + 1, Nat.succ_le_succ hk, ?_⟩
      rw [traj_shift, traj_shift]
      exact hstag

/-- On any finite table the cursor trajectory stagnates within
`rows.length + 1` iterations: two consecutive cursors become equal. -/
theorem traj_stagnation (rows : List TRow) (n : Nat) (c0 : Option Int) :
    ∃ k ≤ rows.length + 1, traj rows n c0 k = traj rows n c0 (k + 1) := by
  apply traj_stagnation_aux
  cases c0 with
  | none => exact Nat.zero_le _
  | some c =>
    have : keysAbove rows c ≤ rows.length := by
      unfold keysAbove
      exact List.length_filter_le _ rows
    simp only [cursorPotential]
    omega

theorem listMax?_cons_isSome (x : Int) (xs : List Int) : (listMax? (x :: xs)).isSome := by
  simp only [listMax?]
  cases listMax? xs <;> rfl

/-- On a weakly sorted list of integers the last element is the maximum. -/
theorem getLast?_eq_listMax? :
    ∀ {l : List Int}, l.Pairwise (fun a b => a ≤ b) → l.getLast? = listMax? l := by
  intro l
  induction l with
  | nil => intro _; rfl
  | cons x xs ih =>
    intro hp
    cases xs with
    | nil => rfl
    | cons y ys =>
      rw [List.getLast?_cons_cons, ih hp.of_cons]
      cases hm : listMax? (y :: ys) with
      | none =>
        have := listMax?_cons_isSome y ys
        rw [hm] at this
        exact absurd this (by simp)
      | some m =>
        have hmem : m ∈ y :: ys := by
          apply mem_of_getLast?_eq_some
          rw [ih hp.of_cons, hm]
        have hxm : x ≤ m := List.rel_of_pairwise_cons hp hmem
        rw [show listMax? (x :: y :: ys)
            = match listMax? (y :: ys) with
              | none => some x
              | some mm => some (max x mm) from rfl]
        rw [hm]
        simp [max_eq_right hxm]

/-- On a table sorted by primary key, the next cursor is the maximum primary
key of the window (at most `n` rows with key at least the cursor, ascending). -/
theorem nextCursor_eq_listMax? {rows : List TRow}
    (hp : rows.Pairwise (fun a b => a.key ≤ b.key)) (c : Option Int) (n : Nat) :
    nextCursor rows c n = listMax? ((window rows c n).map (fun r => r.key)) := by
  have hw : (window rows c n).Pairwise (fun a b => a.key ≤ b.key) := by
    cases c with
    | none => exact List.Pairwise.nil
    | some c =>
      exact List.Pairwise.sublist (List.take_sublist n _) (hp.filter _)
  have hsorted : ((window rows c n).map (fun r => r.key)).Pairwise
      (fun a b => (a : Int) ≤ b) := List.pairwise_map.mpr hw
  unfold nextCursor
  rw [← getLast?_eq_listMax? hsorted, List.getLast?_map]

theorem minKey_of_ne_nil {rows : List TRow} (h : rows ≠ []) : ∃ v, minKey rows = some v := by
  cases rows with
  | nil => exact absurd rfl h
  | cons r t => exact ⟨r.key, rfl⟩

/-- Unequal row counts short-circuit diff_table_data with a Mismatch naming
both counts and an empty content-query trace. -/
theorem diff_table_data_counts_ne (t : FirstTable) (rs : List TRow) (n : Nat) (co : Bool)
    (cc : Option (List String)) (h : t.rows.length ≠ rs.length) :
    diff_table_data (some t) (some rs) n co cc
      = (Except.ok (some false, countsMsg t.rows.length rs.length), []) := by
  simp only [diff_table_data]
  rw [if_pos h]

/-- Equal zero counts short-circuit diff_table_data with Inconclusive. -/
theorem diff_table_data_empty (t : FirstTable) (rs : List TRow) (n : Nat) (co : Bool)
    (cc : Option (List String)) (hc : t.rows.length = rs.length) (h0 : t.rows.length = 0) :
    diff_table_data (some t) (some rs) n co cc
      = (Except.ok (none, "tables are empty"), []) := by
  simp only [diff_table_data]
  rw [if_neg (not_not_intro hc), if_pos h0]

/-- With equal non-zero counts and count-only mode, diff_table_data returns
Match without issuing any content query. -/
theorem diff_table_data_countOnly (t : FirstTable) (rs : List TRow) (n : Nat)
    (cc : Option (List String)) (hc : t.rows.length = rs.length) (h0 : t.rows.length ≠ 0) :
    diff_table_data (some t) (some rs) n true cc
      = (Except.ok (some true, "Counts are the same"), []) := by
  simp only [diff_table_data]
  rw [if_neg (not_not_intro hc), if_neg h0, if_pos trivial]

/-- With an empty primary-key constraint the comparison stops Inconclusive. -/
theorem diff_table_data_noPk (t : FirstTable) (rs : List TRow) (n : Nat)
    (cc : Option (List String)) (hc : t.rows.length = rs.length) (h0 : t.rows.length ≠ 0)
    (hpk : String.intercalate commaSep t.pkCols = "") :
    diff_table_data (some t) (some rs) n false cc
      = (Except.ok (none, "no primary key(s) on this table. Comparison is not possible."), []) := by
  simp only [diff_table_data]
  rw [if_neg (not_not_intro hc), if_neg h0, if_neg Bool.false_ne_true, if_pos hpk]

/-- A None check_columns raises TypeError once column validation is reached. -/
theorem diff_table_data_typeError (t : FirstTable) (rs : List TRow) (n : Nat)
    (hc : t.rows.length = rs.length) (h0 : t.rows.length ≠ 0)
    (hpk : String.intercalate commaSep t.pkCols ≠ "") :
    diff_table_data (some t) (some rs) n false none
      = (Except.error PyErr.typeError, []) := by
  simp only [diff_table_data]
  rw [if_neg (not_not_intro hc), if_neg h0, if_neg Bool.false_ne_true, if_neg hpk]

/-- A checked column absent from the first source's column set stops the
comparison Inconclusive with an empty content-query trace. -/
theorem diff_table_data_missingCols (t : FirstTable) (rs : List TRow) (n : Nat)
    (cc : List String) (hc : t.rows.length = rs.length) (h0 : t.rows.length ≠ 0)
    (hpk : String.intercalate commaSep t.pkCols ≠ "")
    (hfil : (cc.filter (fun x => decide (x ∈ t.cols))).length ≠ cc.length) :
    diff_table_data (some t) (some rs) n false (some cc)
      = (Except.ok (none, "missing checked columns"), []) := by
  simp only [diff_table_data]
  rw [if_neg (not_not_intro hc), if_neg h0, if_neg Bool.false_ne_true, if_neg hpk, if_pos hfil]

theorem filter_mem_length_eq {cc cols : List String} (hcc : ∀ x ∈ cc, x ∈ cols) :
    (cc.filter (fun x => decide (x ∈ cols))).length = cc.length := by
  rw [List.filter_eq_self.mpr (fun a ha => decide_eq_true (hcc a ha))]

/-- Differing minimum primary keys stop the comparison with Mismatch after
exactly the two first-key probes, before any chunk digest query. -/
theorem diff_table_data_firstKeys (t : FirstTable) (rs : List TRow) (n : Nat)
    (cc : List String) (hc : t.rows.length = rs.length) (h0 : t.rows.length ≠ 0)
    (hpk : String.intercalate commaSep t.pkCols ≠ "")
    (hcc : ∀ x ∈ cc, x ∈ t.cols) (hmin : minKey t.rows ≠ minKey rs) :
    diff_table_data (some t) (some rs) n false (some cc)
      = (Except.ok (some false, "first primary keys are different"),
          [Query.firstPkQ 1, Query.firstPkQ 2]) := by
  simp only [diff_table_data]
  rw [if_neg (not_not_intro hc), if_neg h0, if_neg Bool.false_ne_true, if_neg hpk,
    if_neg (not_not_intro (filter_mem_length_eq hcc)), if_pos hmin]

/-- Once every validation step passes and the minimum keys agree, the result
of diff_table_data is the result of the chunked scan started at the minimum
key, with the two first-key probes prepended to the scan's query trace. -/
theorem diff_table_data_scan (t : FirstTable) (rs : List TRow) (n : Nat)
    (cc : List String) (hc : t.rows.length = rs.length) (h0 : t.rows.length ≠ 0)
    (hpk : String.intercalate commaSep t.pkCols ≠ "")
    (hcc : ∀ x ∈ cc, x ∈ t.cols) (hmin : minKey t.rows = minKey rs) :
    diff_table_data (some t) (some rs) n false (some cc)
      = ((scanLoop t.rows rs cc n none (minKey t.rows)).1,
          Query.firstPkQ 1 :: Query.firstPkQ 2 ::
            (scanLoop t.rows rs cc n none (minKey t.rows)).2) := by
  simp only [diff_table_data]
  rw [if_neg (not_not_intro hc), if_neg h0, if_neg Bool.false_ne_true, if_neg hpk,
    if_neg (not_not_intro (filter_mem_length_eq hcc)), if_neg (not_not_intro hmin)]

theorem mapM_map_some {α β : Type} (f : α → β) :
    ∀ (l : List α), l.mapM (fun a => some (f a)) = some (l.map f) := by
  intro l
  induction l with
  | nil => rfl
  | cons a t ih =>
    rw [List.mapM_cons, ih]
    rfl

/-- With an empty checked-column list the chunk digest is defined and covers
the full content of every row of the window. -/
theorem chunkDigest_nil_cc (rows : List TRow) (c : Option Int) (n : Nat) :
    chunkDigest rows ([] : List String) c n
      = some ((window rows c n).map (fun r => RowDigest.allCols r.key r.vals)) := by
  unfold chunkDigest
  have : rowDigest ([] : List String) = fun r => some (RowDigest.allCols r.key r.vals) := by
    funext r
    rfl
  rw [this, mapM_map_some]

theorem rowDigest_isSome_of_lookups {cc : List String} {r : TRow}
    (h : ∀ x ∈ cc, (lookupCol r.vals x).isSome) : (rowDigest cc r).isSome := by
  unfold rowDigest
  cases cc with
  | nil => rfl
  | cons y ys =>
    simp only [List.isEmpty_cons, Bool.false_eq_true, if_false]
    rcases Option.isSome_iff_exists.mp (mapM_isSome (lookupCol r.vals) h) with ⟨vs, hvs⟩
    rw [hvs]
    rfl

/-- Claim C3: for existing table pairs, unequal row counts yield Mismatch
with both counts in the reason and an empty content-query trace (no further
scanning); equal zero counts yield Inconclusive "tables are empty" for every
count_only flag, never Match; equal non-zero counts with count_only enabled
yield Match without any content query; and on one fixture with equal counts
but differing content, count_only true yields Match while count_only false
yields Mismatch. -/
theorem claim_C3 :
    (∀ (t : FirstTable) (rs : List TRow) (n : Nat) (co : Bool) (cc : Option (List String)),
      t.rows.length ≠ rs.length →
      diff_table_data (some t) (some rs) n co cc
        = (Except.ok (some false, countsMsg t.rows.length rs.length), []))
    ∧ (∀ (t : FirstTable) (rs : List TRow) (n : Nat) (co : Bool) (cc : Option (List String)),
      t.rows.length = rs.length → t.rows.length = 0 →
      diff_table_data (some t) (some rs) n co cc
        = (Except.ok (none, "tables are empty"), []))
    ∧ (∀ (t : FirstTable) (rs : List TRow) (n : Nat) (cc : Option (List String)),
      t.rows.length = rs.length → t.rows.length ≠ 0 →
      diff_table_data (some t) (some rs) n true cc
        = (Except.ok (some true, "Counts are the same"), []))
    ∧ (diff_table_data (some fixFirst) (some fixSecondDiff) 5 true (some [])).1
        = Except.ok (some true, "Counts are the same")
    ∧ (diff_table_data (some fixFirst) (some fixSecondDiff) 5 false (some [])).1
        = Except.ok (some false, "data is different - start_cursor 1 - with 5") := by
  refine ⟨diff_table_data_counts_ne, diff_table_data_empty, diff_table_data_countOnly, ?_, ?_⟩
  · decide
  · simp [diff_table_data, scanLoop, chunkDigest, window, rowDigest, nextCursor, minKey,
      fixFirst, fixRow1, fixRow2, fixRow2x, fixSecondDiff]
    decide

/-- Witness for claim C3 at concrete inputs: a 2-row table against a 1-row
table mismatches on counts; two empty tables are Inconclusive; equal
non-zero counts under count_only match. -/
theorem claim_C3_witness :
    diff_table_data (some fixFirst) (some [fixRow1]) 7 false none
      = (Except.ok (some false, countsMsg 2 1), [])
    ∧ diff_table_data (some ⟨[], ["id"], []⟩) (some []) 3 true none
      = (Except.ok (none, "tables are empty"), [])
    ∧ diff_table_data (some fixFirst) (some fixSecondDiff) 5 true (some [])
      = (Except.ok (some true, "Counts are the same"), []) :=
  ⟨claim_C3.1 fixFirst [fixRow1] 7 false none (by decide),
   claim_C3.2.1 ⟨[], ["id"], []⟩ [] 3 true none rfl rfl,
   claim_C3.2.2.1 fixFirst fixSecondDiff 5 (some []) (by decide) (by decide)⟩

/-- Claim C4: with equal non-zero counts and count_only disabled, an empty
primary-key constraint yields Inconclusive regardless of content; a checked
column absent from the first source's column set yields Inconclusive
"missing checked columns" with an empty content-query trace; and with no
explicit checked columns the chunk digests cover the full content of every
window row (all columns of the table). -/
theorem claim_C4 :
    (∀ (t : FirstTable) (rs : List TRow) (n : Nat) (cc : Option (List String)),
      t.rows.length = rs.length → t.rows.length ≠ 0 → t.pkCols = [] →
      diff_table_data (some t) (some rs) n false cc
        = (Except.ok (none, "no primary key(s) on this table. Comparison is not possible."), []))
    ∧ (∀ (t : FirstTable) (rs : List TRow) (n : Nat) (cc : List String) (x : String),
      t.rows.length = rs.length → t.rows.length ≠ 0 →
      String.intercalate commaSep t.pkCols ≠ "" → x ∈ cc → x ∉ t.cols →
      diff_table_data (some t) (some rs) n false (some cc)
        = (Except.ok (none, "missing checked columns"), []))
    ∧ (∀ (rows : List TRow) (c : Option Int) (n : Nat),
      chunkDigest rows ([] : List String) c n
        = some ((window rows c n).map (fun r => RowDigest.allCols r.key r.vals))) := by
  refine ⟨?_, ?_, chunkDigest_nil_cc⟩
  · intro t rs n cc hc h0 hpk
    exact diff_table_data_noPk t rs n cc hc h0 (by rw [hpk]; rfl)
  · intro t rs n cc x hc h0 hpk hx hxcols
    apply diff_table_data_missingCols t rs n cc hc h0 hpk
    have hlt : (cc.filter (fun x => decide (x ∈ t.cols))).length < cc.length := by
      have hsub : (cc.filter (fun x => decide (x ∈ t.cols))).length
          ≤ (cc.filter (fun _ => true)).length :=
        length_filter_le_of_imp (fun a _ _ => rfl)
      have := length_filter_lt_of_witness (l := cc)
        (p := fun x => decide (x ∈ t.cols)) (q := fun _ => true)
        (fun a _ _ => rfl) x hx rfl (decide_eq_false hxcols)
      simpa using this
    omega

/-- Witness for claim C4 at concrete inputs: a table with no primary-key
constraint is Inconclusive; asking for checked column zz, absent from the
first source's columns, is Inconclusive; the empty checked-column list
digests whole rows. -/
theorem claim_C4_witness :
    diff_table_data (some ⟨[fixRow1], [], ["id", "a"]⟩) (some [fixRow1]) 4 false none
      = (Except.ok (none, "no primary key(s) on this table. Comparison is not possible."), [])
    ∧ diff_table_data (some fixFirst) (some fixSecondSame) 4 false (some ["zz"])
      = (Except.ok (none, "missing checked columns"), [])
    ∧ chunkDigest [fixRow1] ([] : List String) (some 0) 3
      = some [RowDigest.allCols 1 [("id", 1), ("a", 10)]] :=
  ⟨claim_C4.1 ⟨[fixRow1], [], ["id", "a"]⟩ [fixRow1] 4 none rfl (by decide) rfl,
   claim_C4.2.1 fixFirst fixSecondSame 4 ["zz"] "zz" rfl (by decide) (by decide)
     (by decide) (by decide),
   claim_C4.2.2 [fixRow1] (some 0) 3⟩

/-- Claim C5: once existence, count and key/column validation pass, a
difference between the two minimum primary keys returns Mismatch "first
primary keys are different" after exactly the two first-key probes, with no
chunk digest query in the trace. -/
theorem claim_C5 (t : FirstTable) (rs : List TRow) (n : Nat) (cc : List String)
    (hc : t.rows.length = rs.length) (h0 : t.rows.length ≠ 0)
    (hpk : String.intercalate commaSep t.pkCols ≠ "")
    (hcc : ∀ x ∈ cc, x ∈ t.cols) (hmin : minKey t.rows ≠ minKey rs) :
    diff_table_data (some t) (some rs) n false (some cc)
      = (Except.ok (some false, "first primary keys are different"),
          [Query.firstPkQ 1, Query.firstPkQ 2]) :=
  diff_table_data_firstKeys t rs n cc hc h0 hpk hcc hmin

/-- Witness for claim C5: tables whose minimum keys are 1 and 2. -/
theorem claim_C5_witness :
    diff_table_data (some fixFirst) (some [fixRow2, ⟨3, [("id", 3), ("a", 30)]⟩]) 3 false (some [])
      = (Except.ok (some false, "first primary keys are different"),
          [Query.firstPkQ 1, Query.firstPkQ 2]) :=
  claim_C5 fixFirst [fixRow2, ⟨3, [("id", 3), ("a", 30)]⟩] 3 [] (by decide) (by decide)
    (by decide) (by intro x hx; cases hx) (by decide)

/-- Claim C6: diff_sequence returns Match with the shared value in the
message when the two readings are equal, Inconclusive with both values when
the first is strictly smaller, Mismatch with both values when the first is
strictly larger, and when reading against the second source fails it rolls
both sessions back (returned session state clean) and reports Mismatch
"sequence doesnt exist in second database.". -/
theorem claim_C6 :
    (∀ (v : Int) (s : Sessions), diff_sequence (some v) (some v) s = ((some true, identMsg v), s))
    ∧ (∀ (v1 v2 : Int) (s : Sessions), v1 < v2 →
      diff_sequence (some v1) (some v2) s = ((none, lessMsg v1 v2), s))
    ∧ (∀ (v1 v2 : Int) (s : Sessions), v2 < v1 →
      diff_sequence (some v1) (some v2) s = ((some false, greaterMsg v1 v2), s))
    ∧ (∀ (v1 : Int) (s : Sessions), diff_sequence (some v1) none s
        = ((some false, "sequence doesnt exist in second database."), ⟨false, false⟩)) := by
  refine ⟨?_, ?_, ?_, ?_⟩
  · intro v s
    simp only [diff_sequence]
    rw [if_neg (lt_irrefl v), if_neg (lt_irrefl v)]
  · intro v1 v2 s h
    simp only [diff_sequence]
    rw [if_pos h]
  · intro v1 v2 s h
    simp only [diff_sequence]
    rw [if_neg (not_lt_of_lt h), if_pos h]
  · intro v1 s
    rfl

/-- Witness for claim C6 at the values of the specification's example:
(5,5) matches, (3,5) is Inconclusive, (5,3) mismatches, and a missing
second-source sequence mismatches with clean sessions. -/
theorem claim_C6_witness :
    diff_sequence (some 5) (some 5) ⟨true, false⟩
      = ((some true, "sequences are identical- (5)."), ⟨true, false⟩)
    ∧ diff_sequence (some 3) (some 5) ⟨false, false⟩
      = ((none, "first sequence is less than the second(3 vs 5)."), ⟨false, false⟩)
    ∧ diff_sequence (some 5) (some 3) ⟨false, false⟩
      = ((some false, "first sequence is greater than the second(5 vs 3)."), ⟨false, false⟩)
    ∧ diff_sequence (some 5) none ⟨true, true⟩
      = ((some false, "sequence doesnt exist in second database."), ⟨false, false⟩) :=
  ⟨claim_C6.1 5 ⟨true, false⟩,
   claim_C6.2.1 3 5 ⟨false, false⟩ (by decide),
   claim_C6.2.2.1 5 3 ⟨false, false⟩ (by decide),
   claim_C6.2.2.2 5 ⟨true, true⟩⟩

/-- Claim C9: with the constructor default check_columns=None, any table
that reaches column validation (exists on both sources, equal non-zero
counts, count_only disabled, non-empty primary key) makes diff_table_data
raise TypeError, because the validation iterates over the None value; and
with check_columns=None no row-content query is ever issued, so the
default-to-all-columns content comparison is only reachable with an empty
list. -/
theorem claim_C9 :
    (∀ (t : FirstTable) (rs : List TRow) (n : Nat),
      t.rows.length = rs.length → t.rows.length ≠ 0 →
      String.intercalate commaSep t.pkCols ≠ "" →
      (diff_table_data (some t) (some rs) n false none).1 = Except.error PyErr.typeError)
    ∧ (∀ (ft : Option FirstTable) (srows : Option (List TRow)) (n : Nat) (co : Bool),
      (diff_table_data ft srows n co none).2 = []) := by
  constructor
  · intro t rs n hc h0 hpk
    rw [diff_table_data_typeError t rs n hc h0 hpk]
  · intro ft srows n co
    cases ft with
    | none => rfl
    | some t =>
      cases srows with
      | none => rfl
      | some rs =>
        simp only [diff_table_data]
        split_ifs <;> rfl

/-- Witness for claim C9: the fixture table pair with identical content
raises TypeError under check_columns=None. -/
theorem claim_C9_witness :
    (diff_table_data (some fixFirst) (some fixSecondSame) 10 false none).1
      = Except.error PyErr.typeError :=
  claim_C9.1 fixFirst fixSecondSame 10 (by decide) (by decide) (by decide)

/-- Claim C1: for table pairs that pass existence, count, key/column and
first-key validation and whose rows carry identical keys and identical
checked-column content, diff_table_data returns Match "data is identical."
for every chunk size of at least 1; and when the loop runs without stagnating
or differing for k iterations and the two chunk digests first differ at the
cursor of iteration k, it returns Mismatch whose message embeds that cursor
and the chunk size, and its query trace contains hash queries only for the
cursors of iterations 0 through k, never a later chunk. -/
theorem claim_C1 :
    (∀ (pkCols cols : List String) (rows1 rows2 : List TRow) (cc : List String) (n : Nat),
      rows1.length = rows2.length → rows1.length ≠ 0 →
      String.intercalate commaSep pkCols ≠ "" →
      (∀ x ∈ cc, x ∈ cols) →
      minKey rows1 = minKey rows2 →
      List.Forall₂ (rowRel cc) rows1 rows2 →
      (∀ r ∈ rows1, (rowDigest cc r).isSome) →
      1 ≤ n →
      (diff_table_data (some ⟨rows1, pkCols, cols⟩) (some rows2) n false (some cc)).1
        = Except.ok (some true, "data is identical."))
    ∧ (∀ (pkCols cols : List String) (rows1 rows2 : List TRow) (cc : List String) (n k : Nat),
      rows1.length = rows2.length → rows1.length ≠ 0 →
      String.intercalate commaSep pkCols ≠ "" →
      (∀ x ∈ cc, x ∈ cols) →
      minKey rows1 = minKey rows2 →
      (∀ j < k, chunkDigest rows1 cc (traj rows1 n (minKey rows1) j) n
          = chunkDigest rows2 cc (traj rows1 n (minKey rows1) j) n
        ∧ (chunkDigest rows1 cc (traj rows1 n (minKey rows1) j) n).isSome) →
      (∀ j < k, traj rows1 n (minKey rows1) j ≠ traj rows1 n (minKey rows1) (j + 1)) →
      (chunkDigest rows1 cc (traj rows1 n (minKey rows1) k) n).isSome →
      (chunkDigest rows2 cc (traj rows1 n (minKey rows1) k) n).isSome →
      chunkDigest rows1 cc (traj rows1 n (minKey rows1) k) n
        ≠ chunkDigest rows2 cc (traj rows1 n (minKey rows1) k) n →
      diff_table_data (some ⟨rows1, pkCols, cols⟩) (some rows2) n false (some cc)
        = (Except.ok (some false, mismatchMsg (traj rows1 n (minKey rows1) k) n),
            Query.firstPkQ 1 :: Query.firstPkQ 2 :: mismatchLog rows1 n (minKey rows1) k)
      ∧ ∀ (i : Nat) (c : Option Int),
          Query.hashQ i c ∈ mismatchLog rows1 n (minKey rows1) k →
          ∃ j ≤ k, c = traj rows1 n (minKey rows1) j) := by
  constructor
  · intro pkCols cols rows1 rows2 cc n hc h0 hpk hcc hmin hrel hdig _
    rw [diff_table_data_scan ⟨rows1, pkCols, cols⟩ rows2 n cc hc h0 hpk hcc hmin]
    exact scanLoop_match rows1 rows2 cc n
      (fun c => chunkDigest_eq_of_forall₂ cc hrel c n)
      (fun c => chunkDigest_isSome hdig c n) none (minKey rows1)
  · intro pkCols cols rows1 rows2 cc n k hc h0 hpk hcc hmin Heq Hstep hs1 hs2 hne
    have hnil : rows1 ≠ [] := fun h => h0 (by rw [h]; rfl)
    rcases minKey_of_ne_nil hnil with ⟨v, hv⟩
    have hprev : (none : Option Int) ≠ minKey rows1 := by rw [hv]; simp
    have hscan := scanLoop_mismatch rows1 rows2 cc n k (minKey rows1) none hprev Heq Hstep
      hs1 hs2 hne
    refine ⟨?_, mismatchLog_hashQ rows1 n k (minKey rows1)⟩
    rw [diff_table_data_scan ⟨rows1, pkCols, cols⟩ rows2 n cc hc h0 hpk hcc hmin, hscan]

/-- Witness for claim C1: the identical fixture pair matches with chunk size
3 over checked column a; the fixture pair differing in column a mismatches
at the very first cursor (iteration 0) with chunk size 5. -/
theorem claim_C1_witness :
    (diff_table_data (some fixFirst) (some fixSecondSame) 3 false (some ["a"])).1
        = Except.ok (some true, "data is identical.")
    ∧ diff_table_data (some fixFirst) (some fixSecondDiff) 5 false (some ["a"])
        = (Except.ok (some false, mismatchMsg (some 1) 5),
            Query.firstPkQ 1 :: Query.firstPkQ 2 :: mismatchLog [fixRow1, fixRow2] 5 (some 1) 0) :=
  ⟨claim_C1.1 ["id"] ["id", "a"] [fixRow1, fixRow2] [fixRow1, fixRow2] ["a"] 3
      rfl (by decide) (by decide) (by decide) rfl
      (List.Forall₂.cons ⟨rfl, rfl⟩ (List.Forall₂.cons ⟨rfl, rfl⟩ List.Forall₂.nil))
      (by decide) (by decide),
   (claim_C1.2 ["id"] ["id", "a"] [fixRow1, fixRow2] [fixRow1, fixRow2x] ["a"] 5 0
      rfl (by decide) (by decide) (by decide) rfl
      (fun j hj => absurd hj (Nat.not_lt_zero j))
      (fun j hj => absurd hj (Nat.not_lt_zero j))
      (by decide) (by decide) (by decide)).1⟩

/-- Claim C2: a defined next cursor is at least the current cursor, so the
cursor trajectory is monotonically non-decreasing; on a table sorted by
primary key the next cursor is the maximum key of the window of at most
chunkSize rows with key at least the cursor; the loop exits with Match and
no further query exactly when the previous and current cursor are equal; and
on every finite table the trajectory reaches two equal consecutive cursors
within rows.length + 1 iterations. -/
theorem claim_C2 :
    (∀ (rows : List TRow) (n : Nat) (c c' : Int),
      nextCursor rows (some c) n = some c' → c ≤ c')
    ∧ (∀ (rows : List TRow), rows.Pairwise (fun a b => a.key ≤ b.key) →
      ∀ (c : Option Int) (n : Nat),
        nextCursor rows c n = listMax? ((window rows c n).map (fun r => r.key)))
    ∧ (∀ (rows : List TRow) (n : Nat) (c0 : Option Int) (k : Nat) (c c' : Int),
      traj rows n c0 k = some c → traj rows n c0 (k + 1) = some c' → c ≤ c')
    ∧ (∀ (t1 t2 : List TRow) (cc : List String) (n : Nat) (prev cursor : Option Int),
      scanLoop t1 t2 cc n prev cursor
        = (Except.ok (some true, "data is identical."), []) ↔ prev = cursor)
    ∧ (∀ (rows : List TRow) (n : Nat) (c0 : Option Int),
      ∃ k ≤ rows.length + 1, traj rows n c0 k = traj rows n c0 (k + 1)) := by
  refine ⟨?_, fun rows hp c n => nextCursor_eq_listMax? hp c n, ?_,
    scanLoop_success_iff, traj_stagnation⟩
  · intro rows n c c' h
    rcases nextCursor_spec h with ⟨r, _, _, hle⟩
    exact hle
  · intro rows n c0 k c c' hk hk1
    have : nextCursor rows (some c) n = some c' := by
      have : traj rows n c0 (k + 1) = nextCursor rows (traj rows n c0 k) n := rfl
      rw [this, hk] at hk1
      exact hk1
    rcases nextCursor_spec this with ⟨r, _, _, hle⟩
    exact hle

/-- Witness for claim C2 at concrete inputs: the fixture table advances the
cursor from 1 to 2 (monotone), its next cursor equals the window maximum,
the trajectory step is monotone, and the loop exits with Match when the two
cursors are already equal. -/
theorem claim_C2_witness :
    ((1 : Int) ≤ 2)
    ∧ nextCursor [fixRow1, fixRow2] (some 1) 3
        = listMax? ((window [fixRow1, fixRow2] (some 1) 3).map (fun r => r.key))
    ∧ scanLoop [fixRow1] [fixRow1] [] 2 (some 1) (some 1)
        = (Except.ok (some true, "data is identical."), []) :=
  ⟨claim_C2.1 [fixRow1, fixRow2] 5 1 2 (by decide),
   claim_C2.2.1 [fixRow1, fixRow2] (by decide) (some 1) 3,
   (claim_C2.2.2.2.1 [fixRow1] [fixRow1] [] 2 (some 1) (some 1)).mpr rfl⟩

/-- Claim C7 counterexample: an input on which diff_table_data lets an
exception (the TypeError of iterating a None check_columns) escape the
engine boundary instead of returning a ComparisonResult, refuting the claim
that every failure mode is converted for every input. -/
theorem claim_C7_counterexample :
    (diff_table_data (some fixFirst) (some fixSecondSame) 5 false none).1
      = Except.error PyErr.typeError := by
  decide

/-- Claim C7 as amended: diff_table_data returns a ComparisonResult (no
exception escapes) whenever check_columns is a list rather than None and
every requested column is present in the rows of both sources; and
diff_sequence always returns one of the three ComparisonResult variants. -/
theorem claim_C7_amended :
    (∀ (ft : Option FirstTable) (srows : Option (List TRow)) (n : Nat) (co : Bool)
        (l : List String),
      (∀ t, ft = some t → ∀ r ∈ t.rows, ∀ x ∈ l, (lookupCol r.vals x).isSome) →
      (∀ rs, srows = some rs → ∀ r ∈ rs, ∀ x ∈ l, (lookupCol r.vals x).isSome) →
      ∃ res, (diff_table_data ft srows n co (some l)).1 = Except.ok res)
    ∧ (∀ (v1 v2 : Option Int) (s : Sessions),
      (diff_sequence v1 v2 s).1.1 = some true ∨ (diff_sequence v1 v2 s).1.1 = none
        ∨ (diff_sequence v1 v2 s).1.1 = some false) := by
  constructor
  · intro ft srows n co l h1 h2
    cases ft with
    | none => exact ⟨(some false, "table is missing"), rfl⟩
    | some t =>
      cases srows with
      | none => exact ⟨(some false, "table is missing"), rfl⟩
      | some rs =>
        by_cases hc : t.rows.length = rs.length
        · by_cases h0 : t.rows.length = 0
          · exact ⟨_, by rw [diff_table_data_empty t rs n co (some l) hc h0]⟩
          · cases co with
            | true => exact ⟨_, by rw [diff_table_data_countOnly t rs n (some l) hc h0]⟩
            | false =>
              by_cases hpk : String.intercalate commaSep t.pkCols = ""
              · exact ⟨_, by rw [diff_table_data_noPk t rs n (some l) hc h0 hpk]⟩
              · by_cases hfil : (l.filter (fun x => decide (x ∈ t.cols))).length = l.length
                · have hfe : l.filter (fun x => decide (x ∈ t.cols)) = l :=
                    List.Sublist.eq_of_length (List.filter_sublist l) hfil
                  have hcc : ∀ x ∈ l, x ∈ t.cols := fun x hx =>
                    of_decide_eq_true (List.filter_eq_self.mp hfe x hx)
                  by_cases hmin : minKey t.rows = minKey rs
                  · rw [diff_table_data_scan t rs n l hc h0 hpk hcc hmin]
                    exact scanLoop_no_throw t.rows rs l n
                      (fun c => chunkDigest_isSome (fun r hr =>
                        rowDigest_isSome_of_lookups fun x hx => h1 t rfl r hr x hx) c n)
                      (fun c => chunkDigest_isSome (fun r hr =>
                        rowDigest_isSome_of_lookups fun x hx => h2 rs rfl r hr x hx) c n)
                      none (minKey t.rows)
                  · exact ⟨_, by
                      rw [diff_table_data_firstKeys t rs n l hc h0 hpk hcc hmin]⟩
                · exact ⟨_, by
                    rw [diff_table_data_missingCols t rs n l hc h0 hpk hfil]⟩
        · exact ⟨_, by rw [diff_table_data_counts_ne t rs n co (some l) hc]⟩
  · intro v1 v2 s
    cases v1 with
    | none => right; right; rfl
    | some a =>
      cases v2 with
      | none => right; right; rfl
      | some b =>
        simp only [diff_sequence]
        split_ifs <;> simp

/-- Witness for claim C7 as amended: the identical fixture pair with checked
column a returns a result, and diff_sequence on a missing second-source
sequence yields a tri-state value. -/
theorem claim_C7_witness :
    (∃ res, (diff_table_data (some fixFirst) (some fixSecondSame) 4 false (some ["a"])).1
        = Except.ok res)
    ∧ ((diff_sequence (some 5) none ⟨false, false⟩).1.1 = some true
        ∨ (diff_sequence (some 5) none ⟨false, false⟩).1.1 = none
        ∨ (diff_sequence (some 5) none ⟨false, false⟩).1.1 = some false) :=
  ⟨claim_C7_amended.1 (some fixFirst) (some fixSecondSame) 4 false ["a"]
      (by intro t ht; injection ht with h; subst h; decide)
      (by intro rs hrs; injection hrs with h; subst h; decide),
   claim_C7_amended.2 (some 5) none ⟨false, false⟩⟩

/-- The result component of diff_sequence does not depend on the incoming
session state. -/
theorem diff_sequence_fst_state (v1 v2 : Option Int) (s s' : Sessions) :
    (diff_sequence v1 v2 s).1 = (diff_sequence v1 v2 s').1 := by
  cases v1 with
  | none => rfl
  | some a =>
    cases v2 with
    | none => rfl
    | some b =>
      simp only [diff_sequence]
      split_ifs <;> rfl

/-- Closed form of the sequence-phase loop: it processes every name of its
list, counts exactly the Mismatch results, and reports one line per name. -/
theorem seqPhaseLoop_spec (w : SeqWorld) :
    ∀ (l : List String) (fails : Nat) (rep : List (String × DiffResult)) (st : Sessions),
      seqPhaseLoop w l fails rep st
        = (fails + l.countP
              (fun s => decide ((diff_sequence (w.v1 s) (w.v2 s) ⟨false, false⟩).1.1
                = some false)),
           rep ++ l.map (fun s => (s, (diff_sequence (w.v1 s) (w.v2 s) ⟨false, false⟩).1))) := by
  intro l
  induction l with
  | nil =>
    intro fails rep st
    simp [seqPhaseLoop]
  | cons s ts ih =>
    intro fails rep st
    simp only [seqPhaseLoop]
    rw [ih]
    have hfst := diff_sequence_fst_state (w.v1 s) (w.v2 s) st ⟨false, false⟩
    rw [hfst, Prod.mk.injEq]
    constructor
    · rw [List.countP_cons]
      rcases hd : (diff_sequence (w.v1 s) (w.v2 s) ⟨false, false⟩).1.1 with _ | b
      · simp [hd]
      · cases b <;> simp [hd] <;> omega
    · simp

/-- Closed form of the table-phase loop when every unit's comparison returns
a result: it processes every name, counts exactly the Mismatch results, and
reports one line per name. -/
theorem tablePhaseLoop_spec (w : TableWorld) (n : Nat) (co : Bool) (cc : Option (List String))
    (f : String → DiffResult) :
    ∀ (l : List String) (fails : Nat) (rep : List (String × DiffResult)),
      (∀ t ∈ l, (diff_table_data (w.first t) (w.second t) n co cc).1 = Except.ok (f t)) →
      tablePhaseLoop w n co cc l fails rep
        = Except.ok (fails + l.countP (fun t => decide ((f t).1 = some false)),
            rep ++ l.map (fun t => (t, f t))) := by
  intro l
  induction l with
  | nil =>
    intro fails rep _
    simp [tablePhaseLoop]
  | cons t ts ih =>
    intro fails rep h
    simp only [tablePhaseLoop, h t (List.mem_cons_self t ts)]
    rw [ih _ _ (fun x hx => h x (List.mem_cons_of_mem t hx))]
    simp only [Except.ok.injEq, Prod.mk.injEq]
    constructor
    · rw [List.countP_cons]
      rcases hd : (f t).1 with _ | b
      · simp [hd]
      · cases b <;> simp [hd] <;> omega
    · simp

/-- Claim C8 counterexample: a table world whose units reach column
validation under the constructor default check_columns=None makes
diff_all_table_data abort with the escaping TypeError on its first unit, so
the second enumerated unit is never processed and no exit code is returned,
refuting the claim that every enumerated unit is processed. -/
theorem claim_C8_counterexample :
    diff_all_table_data fixTableWorld 5 false none = Except.error PyErr.typeError := by
  decide

/-- Claim C8 as amended: diff_all_sequences reports one line per catalogued
sequence in sorted order (never aborting), counts only Mismatch results, and
returns 0 iff no sequence mismatched; diff_all_table_data does the same
provided every unit's comparison returns a result rather than raising. -/
theorem claim_C8_amended :
    (∀ (w : SeqWorld),
      (diff_all_sequences w).2
          = (sortStrings (get_all_sequences w)).map
              (fun s => (s, (diff_sequence (w.v1 s) (w.v2 s) ⟨false, false⟩).1))
        ∧ (sortStrings (get_all_sequences w)).Perm (get_all_sequences w)
        ∧ (sortStrings (get_all_sequences w)).Pairwise (fun a b => strLe a b = true)
        ∧ ((diff_all_sequences w).1 = 0 ↔ ∀ s ∈ get_all_sequences w,
            (diff_sequence (w.v1 s) (w.v2 s) ⟨false, false⟩).1.1 ≠ some false))
    ∧ (∀ (w : TableWorld) (n : Nat) (co : Bool) (cc : Option (List String))
        (f : String → DiffResult),
      (∀ t ∈ get_table_names w,
        (diff_table_data (w.first t) (w.second t) n co cc).1 = Except.ok (f t)) →
      diff_all_table_data w n co cc
        = Except.ok
            ((if ∃ t ∈ get_table_names w, (f t).1 = some false then 1 else 0),
             (sortStrings (get_table_names w)).map (fun t => (t, f t)))) := by
  constructor
  · intro w
    have hperm := List.perm_insertionSort (fun a b => strLe a b = true) (get_all_sequences w)
    refine ⟨?_, hperm, List.sorted_insertionSort _ _, ?_⟩
    · simp only [diff_all_sequences]
      rw [seqPhaseLoop_spec]
      simp
    · simp only [diff_all_sequences]
      rw [seqPhaseLoop_spec]
      simp only [Nat.zero_add]
      constructor
      · intro h s hs
        by_cases hpos : 0 < (sortStrings (get_all_sequences w)).countP
            (fun s => decide ((diff_sequence (w.v1 s) (w.v2 s) ⟨false, false⟩).1.1
              = some false))
        · rw [if_pos hpos] at h
          exact absurd h one_ne_zero
        · have hz : (sortStrings (get_all_sequences w)).countP
              (fun s => decide ((diff_sequence (w.v1 s) (w.v2 s) ⟨false, false⟩).1.1
                = some false)) = 0 := by omega
          have := List.countP_eq_zero.mp hz s (hperm.mem_iff.mpr hs)
          simpa using this
      · intro h
        rw [if_neg]
        intro hpos
        rcases List.countP_pos.mp hpos with ⟨s, hs, hp⟩
        exact h s (hperm.mem_iff.mp hs) (by simpa using hp)
  · intro w n co cc f h
    have hperm := List.perm_insertionSort (fun a b => strLe a b = true) (get_table_names w)
    simp only [diff_all_table_data]
    rw [tablePhaseLoop_spec w n co cc f (sortStrings (get_table_names w)) 0 []
      (fun t ht => h t (hperm.subset ht))]
    simp only [Nat.zero_add, List.nil_append, Except.ok.injEq, Prod.mk.injEq]
    refine ⟨?_, trivial⟩
    have hiff : List.countP (fun t => decide ((f t).1 = some false))
        (sortStrings (get_table_names w)) > 0
        ↔ ∃ t ∈ get_table_names w, (f t).1 = some false := by
      rw [gt_iff_lt, List.countP_pos]
      constructor
      · intro ⟨t, ht, hp⟩
        exact ⟨t, hperm.mem_iff.mp ht, by simpa using hp⟩
      · intro ⟨t, ht, hp⟩
        exact ⟨t, hperm.mem_iff.mpr ht, by simpa using hp⟩
    rw [if_congr hiff rfl rfl]

/-- Witness for claim C8 as amended: the fixture table world in count-only
mode processes both tables in sorted order with zero failures, and the
fixture sequence world exits with 0. -/
theorem claim_C8_witness :
    diff_all_table_data fixTableWorld 3 true (some [])
      = Except.ok
          ((if ∃ t ∈ get_table_names fixTableWorld,
              ((fun _ => ((some true, "Counts are the same") : DiffResult)) t).1 = some false
            then 1 else 0),
           (sortStrings (get_table_names fixTableWorld)).map
             (fun t => (t, ((fun _ => ((some true, "Counts are the same") : DiffResult)) t))))
    ∧ (diff_all_sequences fixSeqWorld).1 = 0 :=
  ⟨claim_C8_amended.2 fixTableWorld 3 true (some [])
      (fun _ => (some true, "Counts are the same")) (by intro t ht; fin_cases ht <;> decide),
   (claim_C8_amended.1 fixSeqWorld).2.2.2.mpr (by decide)⟩

/-- Every reported line of the table phase names a unit of the processed
list or of the incoming report accumulator. -/
theorem tablePhaseLoop_mem (w : TableWorld) (n : Nat) (co : Bool) (cc : Option (List String))
    (s : String) (r : DiffResult) :
    ∀ (l : List String) (fails : Nat) (rep : List (String × DiffResult))
      (out : Nat × List (String × DiffResult)),
      tablePhaseLoop w n co cc l fails rep = Except.ok out →
      (s, r) ∈ out.2 → (s, r) ∈ rep ∨ s ∈ l := by
  intro l
  induction l with
  | nil =>
    intro fails rep out hok hmem
    simp only [tablePhaseLoop, Except.ok.injEq] at hok
    rw [← hok] at hmem
    exact Or.inl hmem
  | cons t ts ih =>
    intro fails rep out hok hmem
    simp only [tablePhaseLoop] at hok
    cases hd : (diff_table_data (w.first t) (w.second t) n co cc).1 with
    | error e =>
      rw [hd] at hok
      exact absurd hok (by simp)
    | ok rr =>
      simp only [hd] at hok
      rcases ih _ _ _ hok hmem with hin | hin
      · rcases List.mem_append.mp hin with h1 | h1
        · exact Or.inl h1
        · simp only [List.mem_singleton, Prod.mk.injEq] at h1
          exact Or.inr (by rw [h1.1]; exact List.mem_cons_self t ts)
      · exact Or.inr (List.mem_cons_of_mem t hin)

/-- The table phase depends only on the two sources' tables at the names it
processes. -/
theorem tablePhaseLoop_congr (w w' : TableWorld) (n : Nat) (co : Bool)
    (cc : Option (List String)) :
    ∀ (l : List String), (∀ x ∈ l, w.first x = w'.first x ∧ w.second x = w'.second x) →
      ∀ (fails : Nat) (rep : List (String × DiffResult)),
        tablePhaseLoop w n co cc l fails rep = tablePhaseLoop w' n co cc l fails rep := by
  intro l
  induction l with
  | nil => intro _ fails rep; rfl
  | cons t ts ih =>
    intro h fails rep
    have h1 := (h t (List.mem_cons_self t ts)).1
    have h2 := (h t (List.mem_cons_self t ts)).2
    simp only [tablePhaseLoop, h1, h2]
    cases hd : (diff_table_data (w'.first t) (w'.second t) n co cc).1 with
    | error e => rfl
    | ok rr =>
      exact ih (fun x hx => h x (List.mem_cons_of_mem t hx)) _ _

/-- Claim C10: both phases enumerate their units from the first source's
catalog only: every reported sequence line names a catalogued sequence;
the sequence phase's entire output depends only on the catalog and the two
sources' values at catalogued names; every reported table line names a
catalogued table; the table phase likewise depends only on the catalog and
the sources' tables at catalogued names; and the fixture world with a
sequence present only in the second source exits 0 and reports no line for
it. -/
theorem claim_C10 :
    (∀ (w : SeqWorld) (s : String) (r : DiffResult),
      (s, r) ∈ (diff_all_sequences w).2 → s ∈ get_all_sequences w)
    ∧ (∀ (w w' : SeqWorld), w.firstCatalog = w'.firstCatalog →
      (∀ x ∈ w.firstCatalog, w.v1 x = w'.v1 x ∧ w.v2 x = w'.v2 x) →
      diff_all_sequences w = diff_all_sequences w')
    ∧ (∀ (w : TableWorld) (n : Nat) (co : Bool) (cc : Option (List String))
        (out : Nat × List (String × DiffResult)) (s : String) (r : DiffResult),
      diff_all_table_data w n co cc = Except.ok out → (s, r) ∈ out.2 →
      s ∈ get_table_names w)
    ∧ (∀ (w w' : TableWorld) (n : Nat) (co : Bool) (cc : Option (List String)),
      w.firstCatalog = w'.firstCatalog →
      (∀ x ∈ w.firstCatalog, w.first x = w'.first x ∧ w.second x = w'.second x) →
      diff_all_table_data w n co cc = diff_all_table_data w' n co cc)
    ∧ ((diff_all_sequences fixSeqWorld).1 = 0
      ∧ fixSeqWorld.v2 ("extra") = some 99
      ∧ ∀ p ∈ (diff_all_sequences fixSeqWorld).2, p.1 ≠ "extra") := by
  refine ⟨?_, ?_, ?_, ?_, by decide⟩
  · intro w s r hmem
    have hperm := List.perm_insertionSort (fun a b => strLe a b = true) (get_all_sequences w)
    simp only [diff_all_sequences] at hmem
    rw [seqPhaseLoop_spec] at hmem
    rcases (by simpa using hmem :
        ∃ a ∈ sortStrings (get_all_sequences w),
          a = s ∧ (diff_sequence (w.v1 a) (w.v2 a) ⟨false, false⟩).1 = r) with ⟨a, ha, rfl, _⟩
    exact hperm.subset ha
  · intro w w' hcat hagree
    have hperm := List.perm_insertionSort (fun a b => strLe a b = true) w'.firstCatalog
    simp only [diff_all_sequences, get_all_sequences]
    have hmem : ∀ x ∈ sortStrings w'.firstCatalog, w.v1 x = w'.v1 x ∧ w.v2 x = w'.v2 x := by
      intro x hx
      exact hagree x (by rw [hcat]; exact hperm.subset hx)
    have hcnt : (sortStrings w'.firstCatalog).countP
        (fun s => decide ((diff_sequence (w.v1 s) (w.v2 s) ⟨false, false⟩).1.1 = some false))
        = (sortStrings w'.firstCatalog).countP
          (fun s => decide ((diff_sequence (w'.v1 s) (w'.v2 s) ⟨false, false⟩).1.1
            = some false)) :=
      List.countP_congr (fun x hx => by rw [(hmem x hx).1, (hmem x hx).2])
    have hmap : (sortStrings w'.firstCatalog).map
        (fun s => (s, (diff_sequence (w.v1 s) (w.v2 s) ⟨false, false⟩).1))
        = (sortStrings w'.firstCatalog).map
          (fun s => (s, (diff_sequence (w'.v1 s) (w'.v2 s) ⟨false, false⟩).1)) :=
      List.map_congr_left (fun x hx => by rw [(hmem x hx).1, (hmem x hx).2])
    simp only [seqPhaseLoop_spec, hcat, hcnt, hmap]
  · intro w n co cc out s r hok hmem
    have hperm := List.perm_insertionSort (fun a b => strLe a b = true) (get_table_names w)
    simp only [diff_all_table_data] at hok
    cases hloop : tablePhaseLoop w n co cc (sortStrings (get_table_names w)) 0 [] with
    | error e =>
      rw [hloop] at hok
      exact absurd hok (by simp)
    | ok out' =>
      simp only [hloop, Except.ok.injEq] at hok
      rw [← hok] at hmem
      rcases tablePhaseLoop_mem w n co cc s r _ 0 [] out' hloop hmem with hin | hin
      · exact absurd hin (List.not_mem_nil _)
      · exact hperm.subset hin
  · intro w w' n co cc hcat hagree
    simp only [diff_all_table_data, get_table_names]
    rw [hcat]
    have hperm := List.perm_insertionSort (fun a b => strLe a b = true) w'.firstCatalog
    rw [tablePhaseLoop_congr w w' n co cc (sortStrings w'.firstCatalog)
      (fun x hx => hagree x (by rw [hcat]; exact hperm.subset hx)) 0 []]

/-- Witness for claim C10: in a two-world pair agreeing on the catalogued
sequence s1 but disagreeing on an uncatalogued name, the phase output is
identical. -/
theorem claim_C10_witness :
    diff_all_sequences fixSeqWorld
      = diff_all_sequences ⟨["s1"], fun n => if n = "s1" then some 5 else some 7,
          fun n => if n = "s1" then some 5 else none⟩ :=
  claim_C10.2.1 fixSeqWorld
    ⟨["s1"], fun n => if n = "s1" then some 5 else some 7,
      fun n => if n = "s1" then some 5 else none⟩ rfl
    (by intro x hx; fin_cases hx; exact ⟨rfl, rfl⟩)

end Pgdatadiff
